import Mathlib

/-!
Verification of the matrix bindings in `src/python/magnum/math.matrix.h`.

The binding file registers, for each of the nine matrix shapes
(2/3/4 columns by 2/3/4 rows) and the two transform types Matrix3/Matrix4:
bounds-checked column/element `__getitem__`/`__setitem__`, the `__matmul__`
overloads, constructors such as `from_diagonal` and `identity_init`, and
runtime dispatch shims for the static-vs-member `scaling`/`rotation` names.

Scalars are the binding's floating-point type; they are modelled here as
exact rationals, matching the spec's statement that equality is exact and
operations deterministic. Matrices are column-major, as in the source: a
matrix is a sequence of `Cols` column vectors of `Rows` scalars each.
Numerical operations implemented by the wrapped math library (not part of
this repository's sources) are modelled from the spec and marked as such.
-/

namespace Magnum

/-- Scalar type of the bound matrix types (the binding's floating-point
type, modelled as exact rationals). -/
abbrev Scalar := ℚ

/-- Fixed-size vector of `n` scalars. -/
abbrev Vec (n : ℕ) := Fin n → Scalar

/-- Column-major rectangular matrix: `cols` column vectors, each with
`rows` scalars. `m c r` is the element in column `c`, row `r`. -/
abbrev Mat (cols rows : ℕ) := Fin cols → Fin rows → Scalar

/-- Python-level error raised by the bindings. The only validated runtime
error in the bound library is IndexError (math.matrix.h lines 73-92). -/
inductive PyErr where
  | indexError
deriving DecidableEq

/-- Column `__getitem__` (math.matrix.h lines 79-82): raises IndexError
when `i >= Cols`, otherwise returns column `i`. -/
def getitemCol {c r : ℕ} (self : Mat c r) (i : ℕ) : Except PyErr (Vec r) :=
  if h : c ≤ i then .error .indexError
  else .ok (self ⟨i, Nat.lt_of_not_le h⟩)

/-- Column `__setitem__` (math.matrix.h lines 75-78): raises IndexError
when `i >= Cols` (before any mutation), otherwise replaces column `i`.
The mutated receiver is returned as the second component. -/
def setitemCol {c r : ℕ} (self : Mat c r) (i : ℕ) (value : Vec r) :
    Except PyErr Unit × Mat c r :=
  if h : c ≤ i then (.error .indexError, self)
  else (.ok (), Function.update self ⟨i, Nat.lt_of_not_le h⟩ value)

/-- Element `__getitem__` (math.matrix.h lines 89-92): raises IndexError
when `col >= Cols` or `row >= Rows`, otherwise returns the element. -/
def getitemElem {c r : ℕ} (self : Mat c r) (i : ℕ × ℕ) : Except PyErr Scalar :=
  if h : c ≤ i.1 ∨ r ≤ i.2 then .error .indexError
  else .ok (self ⟨i.1, by omega⟩ ⟨i.2, by omega⟩)

/-- Element `__setitem__` (math.matrix.h lines 85-88): raises IndexError
when `col >= Cols` or `row >= Rows` (before any mutation), otherwise
replaces the single addressed element. -/
def setitemElem {c r : ℕ} (self : Mat c r) (i : ℕ × ℕ) (value : Scalar) :
    Except PyErr Unit × Mat c r :=
  if h : c ≤ i.1 ∨ r ≤ i.2 then (.error .indexError, self)
  else (.ok (),
    Function.update self ⟨i.1, by omega⟩
      (Function.update (self ⟨i.1, by omega⟩) ⟨i.2, by omega⟩ value))

/-- Operation `zero_init` (math.matrix.h lines 63-65): zero-filled matrix. -/
def zeroInit (c r : ℕ) : Mat c r := fun _ _ => 0

/-- Modelled from the spec: `from_diagonal` (math.matrix.h lines 60-62
delegates to the wrapped library's `fromDiagonal`) builds a matrix with the
given values on the diagonal and zero elsewhere (spec section 4.2). -/
def fromDiagonal (c r : ℕ) (vector : Vec (min c r)) : Mat c r :=
  fun col row =>
    if h : (col : ℕ) = (row : ℕ) then
      vector ⟨col, lt_min_iff.mpr ⟨col.isLt, h ▸ row.isLt⟩⟩
    else 0

/-- Modelled from the spec: `diagonal` (math.matrix.h lines 113-115
delegates to the wrapped library) returns the vector of the
`min(Cols, Rows)` diagonal elements (spec section 4.2). -/
def diagonal {c r : ℕ} (self : Mat c r) : Vec (min c r) :=
  fun k =>
    self ⟨k, lt_of_lt_of_le k.isLt (min_le_left c r)⟩
      ⟨k, lt_of_lt_of_le k.isLt (min_le_right c r)⟩

/-- Modelled from the spec: matrix × matrix, the standard product composing
two linear maps (spec section 4.2); every registered `__matmul__` overload
calls the wrapped library's `self*other`. In column-major terms the element
in column `col`, row `row` of `A*B` is the dot of row `row` of `A` with
column `col` of `B`. -/
def matMul {k m n : ℕ} (self : Mat k m) (other : Mat n k) : Mat n m :=
  fun col row => ∑ p : Fin k, self p row * other col p

/-- Modelled from the spec: matrix × vector, standard linear-map
application (spec section 4.2; math.matrix.h lines 104-106 delegate to the
wrapped library). -/
def mulVec {c r : ℕ} (self : Mat c r) (v : Vec c) : Vec r :=
  fun row => ∑ col : Fin c, self col row * v col

/-- Dot product of two vectors. -/
def dot {n : ℕ} (u v : Vec n) : Scalar := ∑ k : Fin n, u k * v k

/-- Row `i` of a column-major matrix, as a vector of `Cols` scalars. -/
def rowOf {c r : ℕ} (self : Mat c r) (i : Fin r) : Vec c := fun col => self col i

/-- Column `j` of a column-major matrix. -/
def colOf {c r : ℕ} (self : Mat c r) (j : Fin c) : Vec r := self j

/-- Modelled from the spec: `identity_init` (math.matrix.h lines 128-130
constructs the wrapped library's identity) — the given value on the
diagonal, zero elsewhere (spec section 4.3). -/
def identityInit (n : ℕ) (value : Scalar) : Mat n n :=
  fun col row => if (col : ℕ) = (row : ℕ) then value else 0

/-- Modelled from the spec: `Matrix3.translation` (math.matrix.h lines
340-341 delegate to the wrapped library) — identity linear part with the
translation vector in the last column (spec sections 3 and 4.4). -/
def matrix3Translation (t : Vec 2) : Mat 3 3 :=
  ![![1, 0, 0], ![0, 1, 0], ![t 0, t 1, 1]]

/-- Modelled from the spec: `transform_point` (math.matrix.h lines 386-387
delegate to the wrapped library) applies the linear part plus the
translation — multiply by the point extended with 1 and keep the first two
components (spec section 4.4). -/
def transformPoint (self : Mat 3 3) (p : Vec 2) : Vec 2 :=
  fun i => mulVec self ![p 0, p 1, 1] ⟨i, Nat.lt_succ_of_lt i.isLt⟩

/-- Python values that can appear as positional arguments or results of
the `scaling`/`rotation` dispatch shims. `mat3`/`mat4` are instances of the
bound Matrix3/Matrix4 classes; `mat3x3`/`mat2x2` are the plain matrix
classes (distinct Python types, so distinct constructors here). -/
inductive PyVal where
  | mat3 (m : Mat 3 3)
  | mat4 (m : Mat 4 4)
  | mat2x2 (m : Mat 2 2)
  | mat3x3 (m : Mat 3 3)
  | vec2 (v : Vec 2)
  | vec3 (v : Vec 3)
  | scalar (x : Scalar)
  | rad (angle : Scalar)

/-- Runtime check performed by the dispatch shims: is this value an
instance of the bound Matrix3 class (py::isinstance on args[0])? -/
def isMatrix3 : PyVal → Bool
  | .mat3 _ => true
  | _ => false

/-- Runtime check performed by the dispatch shims: is this value an
instance of the bound Matrix4 class? -/
def isMatrix4 : PyVal → Bool
  | .mat4 _ => true
  | _ => false

/-- The `scaling` dispatch shim on Matrix3 (math.matrix.h lines 405-411):
if there is at least one positional argument and it is a Matrix3 instance,
forward all arguments to the member `_iscaling`, otherwise to the static
`_sscaling`. The two callees are parameters because the source looks them
up by attribute name at call time. -/
def matrix3_scaling (iscaling sscaling : List PyVal → PyVal)
    (args : List PyVal) : PyVal :=
  match args with
  | a :: rest => if isMatrix3 a then iscaling (a :: rest) else sscaling (a :: rest)
  | [] => sscaling []

/-- The `rotation` dispatch shim on Matrix3 (math.matrix.h lines 420-426),
dispatching between the member `_irotation` and the static `_srotation` by
inspecting the first positional argument. -/
def matrix3_rotation (irotation srotation : List PyVal → PyVal)
    (args : List PyVal) : PyVal :=
  match args with
  | a :: rest => if isMatrix3 a then irotation (a :: rest) else srotation (a :: rest)
  | [] => srotation []

/-- The `scaling` dispatch shim on Matrix4 (math.matrix.h lines 520-526). -/
def matrix4_scaling (iscaling sscaling : List PyVal → PyVal)
    (args : List PyVal) : PyVal :=
  match args with
  | a :: rest => if isMatrix4 a then iscaling (a :: rest) else sscaling (a :: rest)
  | [] => sscaling []

/-- The `rotation` dispatch shim on Matrix4 (math.matrix.h lines 535-541). -/
def matrix4_rotation (irotation srotation : List PyVal → PyVal)
    (args : List PyVal) : PyVal :=
  match args with
  | a :: rest => if isMatrix4 a then irotation (a :: rest) else srotation (a :: rest)
  | [] => srotation []

/-- One registered `__matmul__` overload: the shapes (Cols, Rows) of the
receiver, of the other operand, and of the result. -/
structure MatmulOverload where
  selfShape : ℕ × ℕ
  otherShape : ℕ × ℕ
  resultShape : ℕ × ℕ
deriving DecidableEq

/-- The 27 `__matmul__` overloads registered in `matrices()`
(math.matrix.h lines 163-330), transcribed in source order. An entry
⟨(c1, r1), (c2, r2), (c3, r3)⟩ says a Matrix with c1 columns and r1 rows
accepts a (c2, r2) operand and produces a (c3, r3) matrix. -/
def registeredMatmulOverloads : List MatmulOverload := [
  ⟨(2, 2), (2, 2), (2, 2)⟩, ⟨(2, 2), (3, 2), (3, 2)⟩, ⟨(2, 2), (4, 2), (4, 2)⟩,
  ⟨(2, 3), (2, 2), (2, 3)⟩, ⟨(2, 3), (3, 2), (3, 3)⟩, ⟨(2, 3), (4, 2), (4, 3)⟩,
  ⟨(2, 4), (2, 2), (2, 4)⟩, ⟨(2, 4), (3, 2), (3, 4)⟩, ⟨(2, 4), (4, 2), (4, 4)⟩,
  ⟨(3, 2), (2, 3), (2, 2)⟩, ⟨(3, 2), (3, 3), (3, 2)⟩, ⟨(3, 2), (4, 3), (4, 2)⟩,
  ⟨(3, 3), (2, 3), (2, 3)⟩, ⟨(3, 3), (3, 3), (3, 3)⟩, ⟨(3, 3), (4, 3), (4, 3)⟩,
  ⟨(3, 4), (2, 3), (2, 4)⟩, ⟨(3, 4), (3, 3), (3, 4)⟩, ⟨(3, 4), (4, 3), (4, 4)⟩,
  ⟨(4, 2), (2, 4), (2, 2)⟩, ⟨(4, 2), (3, 4), (3, 2)⟩, ⟨(4, 2), (4, 4), (4, 2)⟩,
  ⟨(4, 3), (2, 4), (2, 3)⟩, ⟨(4, 3), (3, 4), (3, 3)⟩, ⟨(4, 3), (4, 4), (4, 3)⟩,
  ⟨(4, 4), (2, 4), (2, 4)⟩, ⟨(4, 4), (3, 4), (3, 4)⟩, ⟨(4, 4), (4, 4), (4, 4)⟩]

/-- The column/row counts instantiated by the bindings. -/
def shapeDims : List ℕ := [2, 3, 4]

/-- C2: column access raises IndexError if and only if `i >= Cols`, and
element access raises IndexError if and only if `col >= Cols` or
`row >= Rows`; every in-range access succeeds. (These bounds checks, at
math.matrix.h lines 73-92, are the only validated runtime errors in the
bound library: every other operation modelled here is a total function.) -/
theorem index_access_error_iff_out_of_range
    (c r : ℕ) (m : Mat c r) (i : ℕ) (p : ℕ × ℕ) (v : Vec r) (x : Scalar) :
    (getitemCol m i = .error .indexError ↔ c ≤ i)
    ∧ ((setitemCol m i v).1 = .error .indexError ↔ c ≤ i)
    ∧ (getitemElem m p = .error .indexError ↔ c ≤ p.1 ∨ r ≤ p.2)
    ∧ ((setitemElem m p x).1 = .error .indexError ↔ c ≤ p.1 ∨ r ≤ p.2)
    ∧ (i < c → ∃ w, getitemCol m i = .ok w)
    ∧ (i < c → (setitemCol m i v).1 = .ok ())
    ∧ (p.1 < c → p.2 < r → ∃ w, getitemElem m p = .ok w)
    ∧ (p.1 < c → p.2 < r → (setitemElem m p x).1 = .ok ()) := by
  unfold getitemCol setitemCol getitemElem setitemElem
  refine ⟨?_, ?_, ?_, ?_, ?_, ?_, ?_, ?_⟩ <;>
    · split_ifs with h <;> simp_all <;> omega

/-- C2 witness: in-range accesses on a concrete 2x2 matrix succeed. -/
theorem index_access_error_iff_out_of_range_witness :
    (∃ w, getitemCol (zeroInit 2 2) 1 = Except.ok w)
    ∧ (setitemCol (zeroInit 2 2) 1 ![3, 4]).1 = Except.ok ()
    ∧ (∃ w, getitemElem (zeroInit 2 2) (1, 0) = Except.ok w)
    ∧ (setitemElem (zeroInit 2 2) (1, 0) 5).1 = Except.ok () := by
  have h := index_access_error_iff_out_of_range 2 2 (zeroInit 2 2) 1 (1, 0) ![3, 4] 5
  exact ⟨h.2.2.2.2.1 (by decide), h.2.2.2.2.2.1 (by decide),
    h.2.2.2.2.2.2.1 (by decide) (by decide), h.2.2.2.2.2.2.2 (by decide) (by decide)⟩

/-- C5: set-then-get on a column round-trips — for every in-range `i` and
vector `v` of length Rows, after `m[i] = v` the access `m[i]` returns
exactly `v`. -/
theorem set_then_get_column_roundtrip (c r : ℕ) (m : Mat c r) (i : ℕ)
    (v : Vec r) (h : i < c) :
    getitemCol (setitemCol m i v).2 i = .ok v := by
  have h' : ¬ c ≤ i := Nat.not_le.mpr h
  simp [getitemCol, setitemCol, h']

/-- C5 witness: concrete set-then-get round-trip on a 3x2 matrix. -/
theorem set_then_get_column_roundtrip_witness :
    1 < 3 ∧ getitemCol (setitemCol (zeroInit 3 2) 1 ![5, 7]).2 1 = .ok ![5, 7] :=
  ⟨by decide, set_then_get_column_roundtrip 3 2 (zeroInit 3 2) 1 ![5, 7] (by decide)⟩

/-- C9: the in-place setters modify only the addressed part — `m[i] = v`
leaves every column `j` with a different index unchanged, and
`m[(col, row)] = x` leaves every differently-addressed element unchanged. -/
theorem setters_modify_only_addressed_part (c r : ℕ) (m : Mat c r) (i : ℕ)
    (v : Vec r) (p : ℕ × ℕ) (x : Scalar) :
    (∀ j : Fin c, (j : ℕ) ≠ i → (setitemCol m i v).2 j = m j)
    ∧ (∀ (col : Fin c) (row : Fin r), (col : ℕ) ≠ p.1 ∨ (row : ℕ) ≠ p.2 →
        (setitemElem m p x).2 col row = m col row) := by
  constructor
  · intro j hj
    unfold setitemCol
    split_ifs with h
    · rfl
    · dsimp only
      rw [Function.update_apply]
      split_ifs with e
      · exact absurd (by rw [e]) hj
      · rfl
  · intro col row hcr
    unfold setitemElem
    split_ifs with h
    · rfl
    · dsimp only
      rw [Function.update_apply]
      split_ifs with e1
      · rw [Function.update_apply]
        split_ifs with e2
        · exfalso
          rcases hcr with hc | hr
          · exact hc (by rw [e1])
          · exact hr (by rw [e2])
        · rw [e1]
      · rfl

/-- C9 witness: a concrete column write at index 0 leaves column 1 of a
2x2 matrix unchanged. -/
theorem setters_modify_only_addressed_part_witness :
    ((1 : Fin 2) : ℕ) ≠ 0
    ∧ (setitemCol (zeroInit 2 2) 0 ![1, 1]).2 1 = zeroInit 2 2 1 :=
  ⟨by decide,
    (setters_modify_only_addressed_part 2 2 (zeroInit 2 2) 0 ![1, 1] (0, 0) 5).1
      1 (by decide)⟩

/-- C10: failed index writes are atomic — with an out-of-range index the
setter raises IndexError and the matrix is left exactly unchanged. -/
theorem failed_write_leaves_matrix_unchanged (c r : ℕ) (m : Mat c r) (i : ℕ)
    (v : Vec r) (p : ℕ × ℕ) (x : Scalar) :
    (c ≤ i → setitemCol m i v = (.error .indexError, m))
    ∧ (c ≤ p.1 ∨ r ≤ p.2 → setitemElem m p x = (.error .indexError, m)) := by
  constructor
  · intro h; unfold setitemCol; rw [dif_pos h]
  · intro h; unfold setitemElem; rw [dif_pos h]

/-- C10 witness: a concrete out-of-range column write and element write on
a 2x2 matrix raise IndexError and leave the matrix unchanged. -/
theorem failed_write_leaves_matrix_unchanged_witness :
    2 ≤ 5
    ∧ setitemCol (zeroInit 2 2) 5 ![1, 1] = (.error .indexError, zeroInit 2 2)
    ∧ setitemElem (zeroInit 2 2) (0, 7) 3 = (.error .indexError, zeroInit 2 2) := by
  have h := failed_write_leaves_matrix_unchanged 2 2 (zeroInit 2 2) 5 ![1, 1] (0, 7) 3
  exact ⟨by decide, h.1 (by decide), h.2 (Or.inr (by decide))⟩

/-- C1: the single-name `scaling`/`rotation` operations on Matrix3 and
Matrix4 dispatch on the first positional argument at call time — when it is
an instance of the matrix type itself the shim forwards the whole call to
the registered member extraction, and every other call (including one with
no positional arguments) goes to the registered static constructor. The
member and static callees are quantified because the source resolves them
by attribute name at call time. -/
theorem dispatch_scaling_rotation_first_arg
    (mem stat : List PyVal → PyVal) (args : List PyVal) :
    ((∃ m rest, args = PyVal.mat3 m :: rest) →
      matrix3_scaling mem stat args = mem args
      ∧ matrix3_rotation mem stat args = mem args)
    ∧ ((∀ (m : Mat 3 3) (rest : List PyVal), args ≠ PyVal.mat3 m :: rest) →
      matrix3_scaling mem stat args = stat args
      ∧ matrix3_rotation mem stat args = stat args)
    ∧ ((∃ m rest, args = PyVal.mat4 m :: rest) →
      matrix4_scaling mem stat args = mem args
      ∧ matrix4_rotation mem stat args = mem args)
    ∧ ((∀ (m : Mat 4 4) (rest : List PyVal), args ≠ PyVal.mat4 m :: rest) →
      matrix4_scaling mem stat args = stat args
      ∧ matrix4_rotation mem stat args = stat args) := by
  refine ⟨?_, ?_, ?_, ?_⟩
  · rintro ⟨m, rest, rfl⟩
    exact ⟨rfl, rfl⟩
  · intro hne
    cases args with
    | nil => exact ⟨rfl, rfl⟩
    | cons a rest =>
      have ha : isMatrix3 a = false := by
        cases a
        case mat3 m => exact absurd rfl (hne m rest)
        all_goals rfl
      constructor
      · show (if isMatrix3 a then mem (a :: rest) else stat (a :: rest)) = _
        rw [ha]; rfl
      · show (if isMatrix3 a then mem (a :: rest) else stat (a :: rest)) = _
        rw [ha]; rfl
  · rintro ⟨m, rest, rfl⟩
    exact ⟨rfl, rfl⟩
  · intro hne
    cases args with
    | nil => exact ⟨rfl, rfl⟩
    | cons a rest =>
      have ha : isMatrix4 a = false := by
        cases a
        case mat4 m => exact absurd rfl (hne m rest)
        all_goals rfl
      constructor
      · show (if isMatrix4 a then mem (a :: rest) else stat (a :: rest)) = _
        rw [ha]; rfl
      · show (if isMatrix4 a then mem (a :: rest) else stat (a :: rest)) = _
        rw [ha]; rfl

/-- C1 witness: a call whose first positional argument is a Matrix3
instance goes to the member callee; a call with no positional arguments and
a call with a vector first argument go to the static callee. -/
theorem dispatch_scaling_rotation_first_arg_witness :
    (matrix3_scaling (fun _ => PyVal.scalar 1) (fun _ => PyVal.scalar 2)
        [PyVal.mat3 (zeroInit 3 3)] = PyVal.scalar 1)
    ∧ (matrix4_rotation (fun _ => PyVal.scalar 1) (fun _ => PyVal.scalar 2)
        [] = PyVal.scalar 2)
    ∧ (matrix3_rotation (fun _ => PyVal.scalar 1) (fun _ => PyVal.scalar 2)
        [PyVal.vec2 ![1, 2]] = PyVal.scalar 2) :=
  ⟨((dispatch_scaling_rotation_first_arg (fun _ => PyVal.scalar 1)
      (fun _ => PyVal.scalar 2) [PyVal.mat3 (zeroInit 3 3)]).1
      ⟨zeroInit 3 3, [], rfl⟩).1,
   ((dispatch_scaling_rotation_first_arg (fun _ => PyVal.scalar 1)
      (fun _ => PyVal.scalar 2) []).2.2.2
      (fun _ _ h => List.noConfusion h)).2,
   ((dispatch_scaling_rotation_first_arg (fun _ => PyVal.scalar 1)
      (fun _ => PyVal.scalar 2) [PyVal.vec2 ![1, 2]]).2.1
      (fun _ _ h => by injection h with h1 _; exact PyVal.noConfusion h1)).2⟩

/-- C6: the matrix built by `from_diagonal(v)` has exactly the values of
`v` on its main diagonal and zero everywhere else, so
`from_diagonal(v).diagonal() == v` round-trips exactly. -/
theorem from_diagonal_diagonal_roundtrip (c r : ℕ) (v : Vec (min c r)) :
    diagonal (fromDiagonal c r v) = v
    ∧ (∀ k : Fin (min c r),
        fromDiagonal c r v ⟨k, lt_of_lt_of_le k.isLt (min_le_left c r)⟩
          ⟨k, lt_of_lt_of_le k.isLt (min_le_right c r)⟩ = v k)
    ∧ (∀ (col : Fin c) (row : Fin r), (col : ℕ) ≠ (row : ℕ) →
        fromDiagonal c r v col row = 0) := by
  refine ⟨funext fun k => ?_, fun k => ?_, fun col row hne => ?_⟩
  · simp [diagonal, fromDiagonal]
  · simp [fromDiagonal]
  · simp [fromDiagonal, hne]

/-- C6 witness: a concrete diagonal matrix, its round-trip, and one of its
off-diagonal zeros. -/
theorem from_diagonal_diagonal_roundtrip_witness :
    diagonal (fromDiagonal 3 2 ![5, 7]) = ![5, 7]
    ∧ ((0 : Fin 3) : ℕ) ≠ ((1 : Fin 2) : ℕ)
    ∧ fromDiagonal 3 2 ![5, 7] 0 1 = 0 :=
  ⟨(from_diagonal_diagonal_roundtrip 3 2 ![5, 7]).1, by decide,
    (from_diagonal_diagonal_roundtrip 3 2 ![5, 7]).2.2 0 1 (by decide)⟩

/-- C7: multiplying any square matrix by the identity matrix (built by
`identity_init` with value 1) on either side returns it unchanged,
exactly. Stated for every size `n`, which covers the bound sizes 2, 3, 4. -/
theorem mul_identity_left_right (n : ℕ) (A : Mat n n) :
    matMul A (identityInit n 1) = A ∧ matMul (identityInit n 1) A = A := by
  constructor
  · funext col row
    show (∑ p : Fin n, A p row * identityInit n 1 col p) = A col row
    simp [identityInit, mul_ite, Fin.val_eq_val, Finset.sum_ite_eq,
      Finset.sum_ite_eq']
  · funext col row
    show (∑ p : Fin n, identityInit n 1 p row * A col p) = A col row
    simp [identityInit, ite_mul, Fin.val_eq_val, Finset.sum_ite_eq,
      Finset.sum_ite_eq']

/-- C8: a pure 2D translation matrix moves every point by the translation
vector — `Matrix3.translation(t).transform_point(p)` equals `p + t`
exactly, and in particular maps the origin to `(1, 2)` for `t = (1, 2)`. -/
theorem translation_transform_point :
    (∀ (t p : Vec 2),
      transformPoint (matrix3Translation t) p = fun i => p i + t i)
    ∧ transformPoint (matrix3Translation ![1, 2]) ![0, 0] = ![1, 2] := by
  have hgen : ∀ (t p : Vec 2),
      transformPoint (matrix3Translation t) p = fun i => p i + t i := by
    intro t p
    funext i
    fin_cases i <;>
      simp [transformPoint, matrix3Translation, mulVec, Fin.sum_univ_three]
  refine ⟨hgen, ?_⟩
  rw [hgen ![1, 2] ![0, 0]]
  funext i
  fin_cases i <;> norm_num

/-- C3: among the shape pairs the bindings instantiate (2/3/4 columns by
2/3/4 rows), a `__matmul__` overload with receiver shape (c1, r1) and
operand shape (c2, r2) is registered exactly when r2 = c1, and then its
result shape is (c2, r1); moreover the product each overload delegates to
is the standard matrix product composing the two linear maps. -/
theorem matmul_registered_shapes_rule :
    (∀ c1 ∈ shapeDims, ∀ r1 ∈ shapeDims, ∀ c2 ∈ shapeDims, ∀ r2 ∈ shapeDims,
      ((∃ o ∈ registeredMatmulOverloads,
          o.selfShape = (c1, r1) ∧ o.otherShape = (c2, r2)) ↔ r2 = c1)
      ∧ (∀ o ∈ registeredMatmulOverloads,
          o.selfShape = (c1, r1) ∧ o.otherShape = (c2, r2) →
            o.resultShape = (c2, r1)))
    ∧ (∀ (k m n : ℕ) (A : Mat k m) (B : Mat n k) (v : Vec n),
        mulVec (matMul A B) v = mulVec A (mulVec B v)) := by
  constructor
  · decide
  · intro k m n A B v
    funext row
    show (∑ col : Fin n, matMul A B col row * v col)
      = ∑ p : Fin k, A p row * mulVec B v p
    calc (∑ col : Fin n, (∑ p : Fin k, A p row * B col p) * v col)
        = ∑ col : Fin n, ∑ p : Fin k, A p row * (B col p * v col) := by
          refine Finset.sum_congr rfl fun col _ => ?_
          rw [Finset.sum_mul]
          exact Finset.sum_congr rfl fun p _ => by ring
      _ = ∑ p : Fin k, ∑ col : Fin n, A p row * (B col p * v col) :=
          Finset.sum_comm
      _ = ∑ p : Fin k, A p row * ∑ col : Fin n, B col p * v col := by
          refine Finset.sum_congr rfl fun p _ => ?_
          rw [Finset.mul_sum]
      _ = ∑ p : Fin k, A p row * mulVec B v p := rfl

/-- C3 witness: for shapes (2, 3) and (3, 2) an overload is registered
(as r2 = 2 = c1), and every registered overload with those shapes produces
a (3, 3) result. -/
theorem matmul_registered_shapes_rule_witness :
    (∃ o ∈ registeredMatmulOverloads,
      o.selfShape = (2, 3) ∧ o.otherShape = (3, 2))
    ∧ (∀ o ∈ registeredMatmulOverloads,
        o.selfShape = (2, 3) ∧ o.otherShape = (3, 2) → o.resultShape = (3, 3)) :=
  ⟨(matmul_registered_shapes_rule.1 2 (by decide) 3 (by decide) 3 (by decide)
      2 (by decide)).1.mpr rfl,
   (matmul_registered_shapes_rule.1 2 (by decide) 3 (by decide) 3 (by decide)
      2 (by decide)).2⟩

/-- C4: multiplying a 2-row-by-3-column matrix by a 3-row-by-2-column
matrix (column-major shapes: Mat 3 2 times Mat 2 3) yields a 2-by-2
matrix whose element at row i, column j is the dot product of row i of the
first factor with column j of the second factor — for all inputs, and in
particular for a literal small-integer instance. -/
theorem matmul_2x3_by_3x2_dot_product :
    (∀ (A : Mat 3 2) (B : Mat 2 3) (i j : Fin 2),
      matMul A B j i = dot (rowOf A i) (colOf B j))
    ∧ matMul (![![1, 4], ![2, 5], ![3, 6]] : Mat 3 2)
        (![![7, 9, 11], ![8, 10, 12]] : Mat 2 3)
      = ![![58, 139], ![64, 154]] := by
  constructor
  · intro A B i j
    rfl
  · funext j i
    fin_cases j <;> fin_cases i <;>
      norm_num [matMul, Fin.sum_univ_three]

end Magnum
